import Mathlib

/-!
# Verification of the incremental compiler (parser + code generator)

A shallow embedding of the compiler's core: the AST (`src/ast.h`), the
tagging scheme (`src/tags.h`), the recursive-descent parser (`src/parser.c`)
and the code generator (`src/codegen.c`), together with a small-step
semantics for the subset of x86-32 instructions the generator emits.

Machine words are modelled as `Nat` values below `2^32`; signed
interpretation (`toSigned`) is used where the hardware or C semantics
compares or shifts signed quantities.  C `int` arithmetic is modelled as
arithmetic modulo `2^32` on the bit pattern (`wrap`), with arithmetic
right shift modelled as floor division of the signed value, matching the
code generator's `sarl` and gcc's behaviour for `>>` on `int`.
-/

namespace Compiler

/-- Decidable equality for `Except`, used to evaluate the model on
concrete inputs. -/
instance {ε α : Type} [DecidableEq ε] [DecidableEq α] : DecidableEq (Except ε α) := fun a b =>
  match a, b with
  | .ok x, .ok y =>
      if h : x = y then .isTrue (by rw [h]) else .isFalse (by simp [h])
  | .error x, .error y =>
      if h : x = y then .isTrue (by rw [h]) else .isFalse (by simp [h])
  | .ok _, .error _ => .isFalse (by simp)
  | .error _, .ok _ => .isFalse (by simp)

/-! ## Tagging scheme (src/tags.h) -/

/-- `2^32`, the size of the machine word space. -/
def W : Nat := 4294967296

/-- Interpret an integer as a 32-bit bit pattern (C int / machine register). -/
def wrap (z : Int) : Nat := (z % (4294967296 : Int)).toNat

/-- Signed (two's complement) reading of a 32-bit pattern. -/
def toSigned (n : Nat) : Int :=
  if n < 2147483648 then (n : Int) else (n : Int) - 4294967296

/-- `#define char_tag 0x0F` -/
def char_tag : Nat := 0x0F

/-- `#define bool_tag 0x1F` -/
def bool_tag : Nat := 0x1F

/-- `#define empty_list_tag 0x2F` -/
def empty_list_tag : Nat := 0x2F

/-- `tag_fixnum` from tags.h: `value << fixnum_shift` with `fixnum_shift = 2`. -/
def tag_fixnum (v : Int) : Nat := wrap (v * 4)

/-! ## AST (src/ast.h) -/

/-- `UnaryPrimType` from ast.h. -/
inductive UnaryPrimType where
  | PRIM_ADD1
  | PRIM_SUB1
  | PRIM_INTEGER_TO_CHAR
  | PRIM_CHAR_TO_INTEGER
  | PRIM_ZERO_P
  | PRIM_NULL_P
  | PRIM_INTEGER_P
  | PRIM_BOOLEAN_P
  | PRIM_CHAR_P
deriving DecidableEq, Repr

/-- `BinaryPrimType` from ast.h. -/
inductive BinaryPrimType where
  | PRIM_PLUS
  | PRIM_MINUS
  | PRIM_MULTIPLY
  | PRIM_EQUALS
  | PRIM_LESS
  | PRIM_GREATER
  | PRIM_LESS_EQUAL
  | PRIM_GREATER_EQUAL
  | PRIM_CHAR_EQUAL
  | PRIM_CHAR_LESS
deriving DecidableEq, Repr

/-- `Expr` from ast.h.  Fixnum payloads are C `int`s (modelled as `Int`),
character payloads are C `char`s promoted to `int` where used, booleans
are C truth values. -/
inductive Expr where
  | fixnum (value : Int)
  | boolean (value : Bool)
  | character (value : Int)
  | emptyList
  | unaryPrim (op : UnaryPrimType) (operand : Expr)
  | binaryPrim (op : BinaryPrimType) (operand1 operand2 : Expr)
  | var (name : String)
  | letE (name : String) (init body : Expr)
  | ifE (test consequent alternate : Expr)
  | cons (car_expr cdr_expr : Expr)
  | car (pair : Expr)
  | cdr (pair : Expr)
deriving DecidableEq, Repr

/-! ## Instructions emitted by the code generator

Each constructor corresponds to one `fprintf` instruction template in
`src/codegen.c` (AT&T syntax).  Labels are the numbers printed as `.L%d`. -/

inductive Instr where
  /-- `movl $v, %eax` -/
  | movImmEax (v : Int)
  /-- `addl $v, %eax` -/
  | addImmEax (v : Int)
  /-- `subl $v, %eax` -/
  | subImmEax (v : Int)
  /-- `cmpl $v, %eax` -/
  | cmpImmEax (v : Int)
  /-- `movl %eax, %ecx` -/
  | movEaxEcx
  /-- `andl $v, %ecx` -/
  | andImmEcx (v : Int)
  /-- `cmpl $v, %ecx` -/
  | cmpImmEcx (v : Int)
  /-- `sete %al` -/
  | sete
  /-- `setl %al` -/
  | setl
  /-- `setg %al` -/
  | setg
  /-- `setle %al` -/
  | setle
  /-- `setge %al` -/
  | setge
  /-- `movzbl %al, %eax` -/
  | movzblAlEax
  /-- `sall $k, %eax` -/
  | salImmEax (k : Nat)
  /-- `shrl $k, %eax` -/
  | shrImmEax (k : Nat)
  /-- `sarl $k, %eax` -/
  | sarImmEax (k : Nat)
  /-- `orl $v, %eax` -/
  | orImmEax (v : Int)
  /-- `movl off(%esp), %eax` -/
  | movStackEax (off : Int)
  /-- `movl %eax, off(%esp)` -/
  | movEaxStack (off : Int)
  /-- `addl off(%esp), %eax` -/
  | addStackEax (off : Int)
  /-- `subl off(%esp), %eax` -/
  | subStackEax (off : Int)
  /-- `movl off(%esp), %ecx` -/
  | movStackEcx (off : Int)
  /-- `imull %ecx, %eax` -/
  | imulEcxEax
  /-- `cmpl %eax, off(%esp)` (flags from memory operand minus `%eax`) -/
  | cmpEaxStack (off : Int)
  /-- `movl %esp, %eax` -/
  | movEspEax
  /-- `movl off(%eax), %eax` -/
  | movMemEaxEax (off : Int)
  /-- `jmp .Ln` -/
  | jmp (l : Nat)
  /-- `je .Ln` -/
  | je (l : Nat)
  /-- `.Ln:` (a label definition; executes as a no-op) -/
  | label (l : Nat)
  /-- `movl $v, %esi` (heap-pointer initialisation in the program preamble) -/
  | movImmEsi (v : Int)
  /-- `movl %eax, %ebx` (program trailer) -/
  | movEaxEbx
  /-- `int $0x80` (program trailer; modelled as a no-op on registers) -/
  | int80
deriving DecidableEq, Repr

/-! ## Machine state and instruction semantics -/

/-- The registers, flags and memory visible to the emitted code.  `mem a`
is the 32-bit word stored at byte address `a`; all emitted accesses are
word-aligned.  `flagDst`/`flagSrc` record the signed values of the
destination and source operands of the last `cmpl`. -/
structure MState where
  eax : Nat
  ecx : Nat
  ebx : Nat
  esi : Nat
  esp : Nat
  mem : Nat → Nat
  flagDst : Int
  flagSrc : Int

/-- Write the condition flag into `%al` (the low byte of `%eax`),
as `sete`/`setl`/... do. -/
def setLowByte (s : MState) (b : Bool) : MState :=
  { s with eax := s.eax - s.eax % 256 + (if b then 1 else 0) }

/-- Semantics of a single non-control-flow instruction.  Control-flow
instructions (`jmp`/`je`/`label`) leave the state unchanged here; the
program-counter machine `stepPc` below gives them their meaning. -/
def execInstr : Instr → MState → MState
  | .movImmEax v, s => { s with eax := wrap v }
  | .addImmEax v, s => { s with eax := wrap ((s.eax : Int) + v) }
  | .subImmEax v, s => { s with eax := wrap ((s.eax : Int) - v) }
  | .cmpImmEax v, s => { s with flagDst := toSigned s.eax, flagSrc := toSigned (wrap v) }
  | .movEaxEcx, s => { s with ecx := s.eax }
  | .andImmEcx v, s => { s with ecx := Nat.land s.ecx (wrap v) }
  | .cmpImmEcx v, s => { s with flagDst := toSigned s.ecx, flagSrc := toSigned (wrap v) }
  | .sete, s => setLowByte s (s.flagDst = s.flagSrc)
  | .setl, s => setLowByte s (s.flagDst < s.flagSrc)
  | .setg, s => setLowByte s (s.flagDst > s.flagSrc)
  | .setle, s => setLowByte s (s.flagDst ≤ s.flagSrc)
  | .setge, s => setLowByte s (s.flagDst ≥ s.flagSrc)
  | .movzblAlEax, s => { s with eax := s.eax % 256 }
  | .salImmEax k, s => { s with eax := wrap ((s.eax : Int) * 2 ^ k) }
  | .shrImmEax k, s => { s with eax := s.eax / 2 ^ k }
  | .sarImmEax k, s => { s with eax := wrap (Int.fdiv (toSigned s.eax) (2 ^ k)) }
  | .orImmEax v, s => { s with eax := Nat.lor s.eax (wrap v) }
  | .movStackEax off, s => { s with eax := s.mem (wrap ((s.esp : Int) + off)) }
  | .movEaxStack off, s =>
      { s with mem := fun a => if a = wrap ((s.esp : Int) + off) then s.eax else s.mem a }
  | .addStackEax off, s =>
      { s with eax := wrap ((s.eax : Int) + (s.mem (wrap ((s.esp : Int) + off)) : Int)) }
  | .subStackEax off, s =>
      { s with eax := wrap ((s.eax : Int) - (s.mem (wrap ((s.esp : Int) + off)) : Int)) }
  | .movStackEcx off, s => { s with ecx := s.mem (wrap ((s.esp : Int) + off)) }
  | .imulEcxEax, s => { s with eax := wrap ((s.eax : Int) * (s.ecx : Int)) }
  | .cmpEaxStack off, s =>
      { s with flagDst := toSigned (s.mem (wrap ((s.esp : Int) + off))),
               flagSrc := toSigned s.eax }
  | .movEspEax, s => { s with eax := s.esp }
  | .movMemEaxEax off, s => { s with eax := s.mem (wrap ((s.eax : Int) + off)) }
  | .jmp _, s => s
  | .je _, s => s
  | .label _, s => s
  | .movImmEsi v, s => { s with esi := wrap v }
  | .movEaxEbx, s => { s with ebx := s.eax }
  | .int80, s => s

/-- Execute a straight-line (jump-free) instruction sequence in order. -/
def runList (code : List Instr) (s : MState) : MState :=
  code.foldl (fun s i => execInstr i s) s

/-- Position of the definition of label `l` in a program, as `jmp`/`je`
resolve it. -/
def findLabel : List Instr → Nat → Option Nat
  | [], _ => none
  | i :: rest, l =>
      if i = Instr.label l then some 0 else (findLabel rest l).map (· + 1)

/-- One step of the program-counter machine: returns the next pc and
state, or `none` when the pc is past the end or a jump target is
missing. -/
def stepPc (p : List Instr) (pc : Nat) (s : MState) : Option (Nat × MState) :=
  match p[pc]? with
  | none => none
  | some i =>
    match i with
    | .jmp l => (findLabel p l).map (fun t => (t, s))
    | .je l =>
        if s.flagDst = s.flagSrc then (findLabel p l).map (fun t => (t, s))
        else some (pc + 1, s)
    | _ => some (pc + 1, execInstr i s)

/-! ## Environment (codegen.c)

The bindings chain of an `Environment` is modelled as a list of
`(name, stack_offset)` pairs; the head is the most recent binding.
`env_extend` conses a new head onto the unmodified parent chain and
`env_lookup` walks head to tail, returning the sentinel `-999` on a
miss, exactly as in the source. -/

abbrev Env := List (String × Int)

/-- `env_lookup` from codegen.c: first match wins, `-999` when absent. -/
def env_lookup : Env → String → Int
  | [], _ => -999
  | (m, off) :: rest, name => if m = name then off else env_lookup rest name

/-! ### Allocation-level model of the environment chain (for `env_extend`/`env_free`)

`env_extend` mallocs one new `EnvEntry` whose `next` points at the parent's
bindings; `env_free` walks the whole `bindings` chain from the head and
frees every entry it reaches.  To reason about which heap cells those two
functions touch, each entry carries an allocation identity. -/

/-- One `EnvEntry` cell together with its allocation identity. -/
structure EnvCell where
  id : Nat
  name : String
  stack_offset : Int
deriving DecidableEq, Repr

/-- The chain of `EnvEntry` cells reachable from an `Environment`'s
`bindings` pointer. -/
abbrev Chain := List EnvCell

/-- `env_extend`: allocate a fresh cell (identity `fresh`) whose `next` is
the parent's unmodified chain. -/
def env_extend_chain (parent : Chain) (name : String) (off : Int) (fresh : Nat) : Chain :=
  ⟨fresh, name, off⟩ :: parent

/-- The allocation identities freed by `env_free`: it iterates
`entry = env->bindings; entry; entry = entry->next` and frees every
entry it reaches. -/
def env_free_freedIds (c : Chain) : List Nat := c.map (·.id)

/-! ## Compile-time evaluation (eval_expr) and constant detection -/

/-- `EvalMode` from codegen.h. -/
inductive EvalMode where
  | MODE_RTE
  | MODE_CTE
deriving DecidableEq, Repr

/-- `eval_expr` from codegen.c: compile-time evaluation of an expression to
a tagged 32-bit value (a C `int` bit pattern).  Comparisons and shifts are
signed, as in C; the catch-all cases call `exit(1)` with a diagnostic,
modelled as `Except.error`. -/
def eval_expr : Expr → Except String Nat
  | .fixnum v => .ok (tag_fixnum v)
  | .boolean b => .ok (if b then Nat.lor bool_tag 0x20 else bool_tag)
  | .character c => .ok (Nat.lor char_tag (wrap (c * 256)))
  | .emptyList => .ok empty_list_tag
  | .unaryPrim op e => do
      let operand ← eval_expr e
      match op with
      | .PRIM_ADD1 => .ok (wrap ((operand : Int) + 4))
      | .PRIM_SUB1 => .ok (wrap ((operand : Int) - 4))
      | .PRIM_ZERO_P => .ok (if operand = 0 then Nat.lor bool_tag 0x20 else bool_tag)
      | .PRIM_INTEGER_P =>
          .ok (if Nat.land operand 3 = 0 then Nat.lor bool_tag 0x20 else bool_tag)
      | .PRIM_BOOLEAN_P =>
          .ok (if Nat.land operand 0x3F = 0x1F then Nat.lor bool_tag 0x20 else bool_tag)
      | .PRIM_NULL_P =>
          .ok (if operand = empty_list_tag then Nat.lor bool_tag 0x20 else bool_tag)
      | .PRIM_CHAR_P =>
          .ok (if Nat.land operand 0xFF = char_tag then Nat.lor bool_tag 0x20 else bool_tag)
      | .PRIM_INTEGER_TO_CHAR => .ok (Nat.lor (wrap ((operand : Int) * 64)) char_tag)
      | .PRIM_CHAR_TO_INTEGER =>
          .ok (wrap (Int.fdiv (toSigned operand) 256 * 4))
  | .binaryPrim op e1 e2 => do
      let left ← eval_expr e1
      let right ← eval_expr e2
      match op with
      | .PRIM_PLUS => .ok (wrap ((left : Int) + right))
      | .PRIM_MINUS => .ok (wrap ((left : Int) - right))
      | .PRIM_MULTIPLY => .ok (wrap (Int.fdiv (toSigned (wrap ((left : Int) * right))) 4))
      | .PRIM_EQUALS =>
          .ok (if toSigned left = toSigned right then Nat.lor bool_tag 0x20 else bool_tag)
      | .PRIM_LESS =>
          .ok (if toSigned left < toSigned right then Nat.lor bool_tag 0x20 else bool_tag)
      | .PRIM_GREATER =>
          .ok (if toSigned left > toSigned right then Nat.lor bool_tag 0x20 else bool_tag)
      | .PRIM_LESS_EQUAL =>
          .ok (if toSigned left ≤ toSigned right then Nat.lor bool_tag 0x20 else bool_tag)
      | .PRIM_GREATER_EQUAL =>
          .ok (if toSigned left ≥ toSigned right then Nat.lor bool_tag 0x20 else bool_tag)
      | .PRIM_CHAR_EQUAL =>
          .ok (if toSigned left = toSigned right then Nat.lor bool_tag 0x20 else bool_tag)
      | .PRIM_CHAR_LESS =>
          .ok (if toSigned left < toSigned right then Nat.lor bool_tag 0x20 else bool_tag)
  | _ => .error "Unknown expression type in eval_expr"

/-- `is_constant_expr` from codegen.c. -/
def is_constant_expr : Expr → Bool
  | .fixnum _ | .boolean _ | .character _ | .emptyList => true
  | .unaryPrim _ e => is_constant_expr e
  | .binaryPrim _ e1 e2 => is_constant_expr e1 && is_constant_expr e2
  | .var _ | .letE _ _ _ | .ifE _ _ _ | .cons _ _ | .car _ | .cdr _ => false

/-! ## Instruction templates (emit_unary_prim / emit_binary_prim) -/

/-- `emit_unary_prim` from codegen.c (the `si` parameter is unused there). -/
def emit_unary_prim (prim : UnaryPrimType) (si : Int) : List Instr :=
  match prim with
  | .PRIM_ADD1 => [.addImmEax 4]
  | .PRIM_SUB1 => [.subImmEax 4]
  | .PRIM_ZERO_P =>
      [.cmpImmEax 0, .sete, .movzblAlEax, .salImmEax 6, .orImmEax 0x3f]
  | .PRIM_INTEGER_P =>
      [.movEaxEcx, .andImmEcx 3, .cmpImmEcx 0, .sete, .movzblAlEax,
       .salImmEax 6, .orImmEax 0x3f]
  | .PRIM_BOOLEAN_P =>
      [.movEaxEcx, .andImmEcx 0x3f, .cmpImmEcx 0x1f, .sete, .movzblAlEax,
       .salImmEax 6, .orImmEax 0x3f]
  | .PRIM_NULL_P =>
      [.cmpImmEax 0x2f, .sete, .movzblAlEax, .salImmEax 6, .orImmEax 0x3f]
  | .PRIM_CHAR_P =>
      [.movEaxEcx, .andImmEcx 0xff, .cmpImmEcx 0x0f, .sete, .movzblAlEax,
       .salImmEax 6, .orImmEax 0x3f]
  | .PRIM_INTEGER_TO_CHAR => [.salImmEax 6, .orImmEax 0x0f]
  | .PRIM_CHAR_TO_INTEGER => [.shrImmEax 8, .salImmEax 2]
where _si := si

/-- `emit_binary_prim` from codegen.c: `%eax` holds the left operand, a
stack slot holds the spilled right operand.  Note that the five numeric
comparisons address `si + 4` while `char=?`/`char<?` address `si`. -/
def emit_binary_prim (prim : BinaryPrimType) (si : Int) : List Instr :=
  match prim with
  | .PRIM_PLUS => [.addStackEax si]
  | .PRIM_MINUS => [.subStackEax si]
  | .PRIM_MULTIPLY => [.movStackEcx si, .imulEcxEax, .sarImmEax 2]
  | .PRIM_EQUALS =>
      [.cmpEaxStack (si + 4), .sete, .movzblAlEax, .salImmEax 6, .orImmEax 0x1f]
  | .PRIM_LESS =>
      [.cmpEaxStack (si + 4), .setg, .movzblAlEax, .salImmEax 6, .orImmEax 0x1f]
  | .PRIM_GREATER =>
      [.cmpEaxStack (si + 4), .setl, .movzblAlEax, .salImmEax 6, .orImmEax 0x1f]
  | .PRIM_LESS_EQUAL =>
      [.cmpEaxStack (si + 4), .setge, .movzblAlEax, .salImmEax 6, .orImmEax 0x1f]
  | .PRIM_GREATER_EQUAL =>
      [.cmpEaxStack (si + 4), .setle, .movzblAlEax, .salImmEax 6, .orImmEax 0x3f]
  | .PRIM_CHAR_EQUAL =>
      [.cmpEaxStack si, .sete, .movzblAlEax, .salImmEax 6, .orImmEax 0x3f]
  | .PRIM_CHAR_LESS =>
      [.cmpEaxStack si, .setl, .movzblAlEax, .salImmEax 6, .orImmEax 0x3f]

/-! ## Label allocation (unique_label) -/

/-- The two static counters of the label allocator: `label_counter` (file
scope, used in the printed name `.L%d`) and `label_count` (function
static, checked against the 100-entry buffer). -/
structure EmitSt where
  label_counter : Nat
  label_count : Nat
deriving DecidableEq, Repr

/-- `unique_label` from codegen.c: aborts once `label_count` reaches 100,
otherwise returns the label number `label_counter` and bumps both
counters. -/
def unique_label (st : EmitSt) : Except String (Nat × EmitSt) :=
  if st.label_count ≥ 100 then
    .error "Too many labels generated"
  else
    .ok (st.label_counter, ⟨st.label_counter + 1, st.label_count + 1⟩)

/-! ## The code generator (emit_expr / emit_program) -/

/-- `emit_expr` from codegen.c.  Returns the emitted instruction list, the
returned stack index, and the label-allocator state; fatal diagnostics
(`exit(1)`) are `Except.error`.  Every spill uses the stack index
*returned* by the preceding recursive call, exactly as in the source. -/
def emit_expr (mode : EvalMode) : Expr → Int → Env → EmitSt →
    Except String (List Instr × Int × EmitSt)
  | e, si, env, st =>
    if mode = .MODE_CTE ∧ is_constant_expr e then do
      let val ← eval_expr e
      .ok ([.movImmEax (val : Int)], si, st)
    else
      match e with
      | .fixnum _ | .boolean _ | .character _ | .emptyList => do
          let val ← eval_expr e
          .ok ([.movImmEax (val : Int)], si, st)
      | .var name =>
          let offset := env_lookup env name
          if offset = -999 then .error "Undefined variable"
          else .ok ([.movStackEax offset], si, st)
      | .unaryPrim op operand => do
          let (code, si1, st1) ← emit_expr mode operand si env st
          .ok (code ++ emit_unary_prim op si1, si1, st1)
      | .binaryPrim op operand1 operand2 => do
          let (code2, si1, st1) ← emit_expr mode operand2 si env st
          let (code1, si2, st2) ← emit_expr mode operand1 (si1 - 4) env st1
          .ok (code2 ++ [.movEaxStack si1] ++ code1 ++ emit_binary_prim op (si2 + 4),
               si2 + 4, st2)
      | .letE name init body => do
          let (codeI, si1, st1) ← emit_expr mode init si env st
          let (codeB, si2, st2) ← emit_expr mode body (si1 - 4) ((name, si1) :: env) st1
          .ok (codeI ++ [.movEaxStack si1] ++ codeB, si2, st2)
      | .ifE test consequent alternate => do
          let (lFalse, st1) ← unique_label st
          let (lEnd, st2) ← unique_label st1
          let (codeT, si1, st3) ← emit_expr mode test si env st2
          let (codeC, si2, st4) ← emit_expr mode consequent si1 env st3
          let (codeA, si3, st5) ← emit_expr mode alternate si2 env st4
          .ok (codeT ++ [.cmpImmEax 0x1f, .je lFalse] ++ codeC ++
               [.jmp lEnd, .label lFalse] ++ codeA ++ [.label lEnd], si3, st5)
      | .cons carE cdrE => do
          let (codeCar, si1, st1) ← emit_expr mode carE si env st
          let (codeCdr, si2, st2) ← emit_expr mode cdrE (si1 - 4) env st1
          .ok (codeCar ++ [.movEaxStack si1] ++ codeCdr ++ [.movEaxStack si2] ++
               [.movEspEax, .addImmEax si2, .orImmEax 1], si2 - 4, st2)
      | .car pairE => do
          let (code, si1, st1) ← emit_expr mode pairE si env st
          .ok (code ++ [.subImmEax 1, .movMemEaxEax 4], si1, st1)
      | .cdr pairE => do
          let (code, si1, st1) ← emit_expr mode pairE si env st
          .ok (code ++ [.subImmEax 1, .movMemEaxEax 0], si1, st1)

/-- `emit_program` from codegen.c: preamble (heap pointer into `%esi`),
the expression at stack index `-4` under the empty environment, and the
exit trailer. -/
def emit_program (mode : EvalMode) (e : Expr) (st : EmitSt) :
    Except String (List Instr) := do
  let (code, _, _) ← emit_expr mode e (-4) [] st
  .ok ([.movImmEsi 0x100000] ++ code ++ [.movEaxEbx, .movImmEax 1, .int80])

/-! ## Syntactic counts used to state stack-index and label facts -/

/-- Number of `Let` nodes in an expression. -/
def countLet : Expr → Nat
  | .fixnum _ | .boolean _ | .character _ | .emptyList | .var _ => 0
  | .unaryPrim _ e => countLet e
  | .binaryPrim _ e1 e2 => countLet e1 + countLet e2
  | .letE _ i b => 1 + countLet i + countLet b
  | .ifE t c a => countLet t + countLet c + countLet a
  | .cons a b => countLet a + countLet b
  | .car e | .cdr e => countLet e

/-- Number of `Cons` nodes in an expression. -/
def countCons : Expr → Nat
  | .fixnum _ | .boolean _ | .character _ | .emptyList | .var _ => 0
  | .unaryPrim _ e => countCons e
  | .binaryPrim _ e1 e2 => countCons e1 + countCons e2
  | .letE _ i b => countCons i + countCons b
  | .ifE t c a => countCons t + countCons c + countCons a
  | .cons a b => 1 + countCons a + countCons b
  | .car e | .cdr e => countCons e

/-- Number of `If` nodes in an expression. -/
def countIf : Expr → Nat
  | .fixnum _ | .boolean _ | .character _ | .emptyList | .var _ => 0
  | .unaryPrim _ e => countIf e
  | .binaryPrim _ e1 e2 => countIf e1 + countIf e2
  | .letE _ i b => countIf i + countIf b
  | .ifE t c a => 1 + countIf t + countIf c + countIf a
  | .cons a b => countIf a + countIf b
  | .car e | .cdr e => countIf e

/-! ## Tokens (src/lexer.h) and the parser (src/parser.c)

The lexer is an external collaborator; the parser is modelled as a
function over the finite token list it pulls.  The end-of-stream token
`TOK_EOF` is represented by the empty list (the C lexer keeps returning
`TOK_EOF` once the input is exhausted). -/

/-- `TokenType`/`Token` from lexer.h (without `TOK_EOF`, which the list
model represents by `[]`). -/
inductive Token where
  | ret
  | number (value : Int)
  | tTrue
  | tFalse
  | tChar (char_value : Int)
  | emptyList
  | ident (name : String)
  | plus
  | minus
  | star
  | lparen
  | rparen
  | semicolon
  | slash
  | equals
  | less
  | greater
  | question
deriving DecidableEq, Repr

/-- The C enum ordinal of a token's `TokenType` (`TOK_EOF = 0` is the
ordinal reported for the empty list). -/
def tokKind : Token → Nat
  | .ret => 1
  | .number _ => 2
  | .tTrue => 3
  | .tFalse => 4
  | .tChar _ => 5
  | .emptyList => 6
  | .ident _ => 7
  | .plus => 8
  | .minus => 9
  | .star => 10
  | .lparen => 11
  | .rparen => 12
  | .semicolon => 13
  | .slash => 14
  | .equals => 15
  | .less => 16
  | .greater => 17
  | .question => 18

/-- The parser's fatal diagnostics, one constructor per `fprintf`+`exit(1)`
site in parser.c.  `outOfFuel` is an artifact of the fuel-based embedding
of the C recursion; `parse_program` supplies more fuel than any parse of
its token list can consume. -/
inductive ParseErr where
  | expectMismatch (expected got : Nat)
  | letVarName
  | unknownPrimitive (name : String)
  | unexpectedPrimary (got : Nat)
  | trailingInput
  | outOfFuel
deriving DecidableEq, Repr

/-- `try_parse_unary_prim` from parser.c (exact string table, in order). -/
def try_parse_unary_prim (name : String) : Option UnaryPrimType :=
  if name = "add1" then some .PRIM_ADD1
  else if name = "sub1" then some .PRIM_SUB1
  else if name = "integer->char" then some .PRIM_INTEGER_TO_CHAR
  else if name = "char->integer" then some .PRIM_CHAR_TO_INTEGER
  else if name = "zero?" then some .PRIM_ZERO_P
  else if name = "null?" then some .PRIM_NULL_P
  else if name = "integer?" then some .PRIM_INTEGER_P
  else if name = "boolean?" then some .PRIM_BOOLEAN_P
  else if name = "char?" then some .PRIM_CHAR_P
  else none

/-- `try_parse_binary_prim` from parser.c (exact string table, in order). -/
def try_parse_binary_prim (name : String) : Option BinaryPrimType :=
  if name = "+" then some .PRIM_PLUS
  else if name = "-" then some .PRIM_MINUS
  else if name = "*" then some .PRIM_MULTIPLY
  else if name = "=" then some .PRIM_EQUALS
  else if name = "<" then some .PRIM_LESS
  else if name = ">" then some .PRIM_GREATER
  else if name = "<=" then some .PRIM_LESS_EQUAL
  else if name = ">=" then some .PRIM_GREATER_EQUAL
  else if name = "char=?" then some .PRIM_CHAR_EQUAL
  else if name = "char<?" then some .PRIM_CHAR_LESS
  else none

/-- `expect` from parser.c: check the current token's type and advance. -/
def expect (k : Nat) (ts : List Token) : Except ParseErr (List Token) :=
  match ts with
  | t :: rest =>
      if tokKind t = k then .ok rest else .error (.expectMismatch k (tokKind t))
  | [] => if 0 = k then .ok [] else .error (.expectMismatch k 0)

mutual

/-- `parse_primary` from parser.c.  The fuel argument bounds recursion
depth; every mutual call decrements it. -/
def parse_primary : Nat → List Token → Except ParseErr (Expr × List Token)
  | 0, _ => .error .outOfFuel
  | fuel + 1, ts =>
    match ts with
    | .number v :: rest => .ok (.fixnum v, rest)
    | .tTrue :: rest => .ok (.boolean true, rest)
    | .tFalse :: rest => .ok (.boolean false, rest)
    | .tChar c :: rest => .ok (.character c, rest)
    | .emptyList :: rest => .ok (.emptyList, rest)
    | .ident name :: rest => .ok (.var name, rest)
    | .lparen :: rest =>
      match rest with
      | .plus :: r2 => do
          let (a1, r3) ← parse_expr fuel r2
          let (a2, r4) ← parse_expr fuel r3
          let r5 ← expect 12 r4
          .ok (.binaryPrim .PRIM_PLUS a1 a2, r5)
      | .minus :: r2 => do
          let (a1, r3) ← parse_expr fuel r2
          let (a2, r4) ← parse_expr fuel r3
          let r5 ← expect 12 r4
          .ok (.binaryPrim .PRIM_MINUS a1 a2, r5)
      | .star :: r2 => do
          let (a1, r3) ← parse_expr fuel r2
          let (a2, r4) ← parse_expr fuel r3
          let r5 ← expect 12 r4
          .ok (.binaryPrim .PRIM_MULTIPLY a1 a2, r5)
      | .equals :: r2 => do
          let (a1, r3) ← parse_expr fuel r2
          let (a2, r4) ← parse_expr fuel r3
          let r5 ← expect 12 r4
          .ok (.binaryPrim .PRIM_EQUALS a1 a2, r5)
      | .less :: r2 => do
          let (a1, r3) ← parse_expr fuel r2
          let (a2, r4) ← parse_expr fuel r3
          let r5 ← expect 12 r4
          .ok (.binaryPrim .PRIM_LESS a1 a2, r5)
      | .greater :: r2 => do
          let (a1, r3) ← parse_expr fuel r2
          let (a2, r4) ← parse_expr fuel r3
          let r5 ← expect 12 r4
          .ok (.binaryPrim .PRIM_GREATER a1 a2, r5)
      | .ident name :: r2 =>
          if name = "let" then do
            let r3 ← expect 11 r2
            match r3 with
            | .ident v :: r4 => do
                let (initE, r5) ← parse_expr fuel r4
                let r6 ← expect 12 r5
                let (body, r7) ← parse_expr fuel r6
                let r8 ← expect 12 r7
                .ok (.letE v initE body, r8)
            | _ => .error .letVarName
          else if name = "if" then do
            let (t, r3) ← parse_expr fuel r2
            let (c, r4) ← parse_expr fuel r3
            let (a, r5) ← parse_expr fuel r4
            let r6 ← expect 12 r5
            .ok (.ifE t c a, r6)
          else if name = "cons" then do
            let (carE, r3) ← parse_expr fuel r2
            let (cdrE, r4) ← parse_expr fuel r3
            let r5 ← expect 12 r4
            .ok (.cons carE cdrE, r5)
          else if name = "car" then do
            let (p, r3) ← parse_expr fuel r2
            let r4 ← expect 12 r3
            .ok (.car p, r4)
          else if name = "cdr" then do
            let (p, r3) ← parse_expr fuel r2
            let r4 ← expect 12 r3
            .ok (.cdr p, r4)
          else
            match try_parse_unary_prim name with
            | some u => do
                let (arg, r3) ← parse_expr fuel r2
                let r4 ← expect 12 r3
                .ok (.unaryPrim u arg, r4)
            | none =>
              match try_parse_binary_prim name with
              | some b => do
                  let (a1, r3) ← parse_expr fuel r2
                  let (a2, r4) ← parse_expr fuel r3
                  let r5 ← expect 12 r4
                  .ok (.binaryPrim b a1 a2, r5)
              | none => .error (.unknownPrimitive name)
      | _ => do
          let (val, r2) ← parse_expr fuel rest
          let r3 ← expect 12 r2
          .ok (val, r3)
    | t :: _ => .error (.unexpectedPrimary (tokKind t))
    | [] => .error (.unexpectedPrimary 0)

/-- `parse_term` from parser.c: a primary followed by `* primary`
repetitions (left-associative). -/
def parse_term : Nat → List Token → Except ParseErr (Expr × List Token)
  | 0, _ => .error .outOfFuel
  | fuel + 1, ts => do
      let (left, rest) ← parse_primary fuel ts
      parse_term_rest fuel left rest

/-- The `while (current_token.type == TOK_STAR)` loop of `parse_term`. -/
def parse_term_rest : Nat → Expr → List Token → Except ParseErr (Expr × List Token)
  | 0, _, _ => .error .outOfFuel
  | fuel + 1, left, ts =>
    match ts with
    | .star :: rest => do
        let (right, r2) ← parse_primary fuel rest
        parse_term_rest fuel (.binaryPrim .PRIM_MULTIPLY left right) r2
    | _ => .ok (left, ts)

/-- `parse_expr` from parser.c: a term followed by `+`/`-` term
repetitions (left-associative). -/
def parse_expr : Nat → List Token → Except ParseErr (Expr × List Token)
  | 0, _ => .error .outOfFuel
  | fuel + 1, ts => do
      let (left, rest) ← parse_term fuel ts
      parse_expr_rest fuel left rest

/-- The `while (current_token.type == TOK_PLUS || ... TOK_MINUS)` loop of
`parse_expr`. -/
def parse_expr_rest : Nat → Expr → List Token → Except ParseErr (Expr × List Token)
  | 0, _, _ => .error .outOfFuel
  | fuel + 1, left, ts =>
    match ts with
    | .plus :: rest => do
        let (right, r2) ← parse_term fuel rest
        parse_expr_rest fuel (.binaryPrim .PRIM_PLUS left right) r2
    | .minus :: rest => do
        let (right, r2) ← parse_term fuel rest
        parse_expr_rest fuel (.binaryPrim .PRIM_MINUS left right) r2
    | _ => .ok (left, ts)

end

/-- The optional leading `return` keyword consumed by `parse_program`. -/
def strip_return : List Token → List Token
  | .ret :: rest => rest
  | ts => ts

/-- The optional trailing semicolon consumed by `parse_program`. -/
def strip_semicolon : List Token → List Token
  | .semicolon :: rest => rest
  | ts => ts

/-- `parse_program` from parser.c: optionally strip a leading `return`
keyword, parse one expression, optionally strip one trailing semicolon,
and insist nothing else remains.  The fuel `3 * length + 16` exceeds the
recursion depth of any parse of the list (the expr→term→primary chain is
three calls deep and every further descent first consumes a token). -/
def parse_program (ts : List Token) : Except ParseErr Expr :=
  let ts1 := strip_return ts
  match parse_expr (3 * ts1.length + 16) ts1 with
  | .error e => .error e
  | .ok (result, rest) =>
    match strip_semicolon rest with
    | [] => .ok result
    | _ :: _ => .error .trailingInput

end Compiler



namespace Compiler

/-! ## Generic facts about the model used by several claims -/

/-- A fixed concrete machine state used to evaluate emitted code:
all registers and flags zero, `%esp = 64`, memory zero-filled. -/
def mstate0 : MState := ⟨0, 0, 0, 0, 64, fun _ => 0, 0, 0⟩

/-- A constant expression contains no `Let`, `Cons` or `If` node. -/
theorem is_constant_counts (e : Expr) (h : is_constant_expr e = true) :
    countLet e = 0 ∧ countCons e = 0 ∧ countIf e = 0 := by
  induction e with
  | fixnum v => exact ⟨rfl, rfl, rfl⟩
  | boolean b => exact ⟨rfl, rfl, rfl⟩
  | character c => exact ⟨rfl, rfl, rfl⟩
  | emptyList => exact ⟨rfl, rfl, rfl⟩
  | unaryPrim op a ih =>
      simp only [is_constant_expr] at h
      simpa [countLet, countCons, countIf] using ih h
  | binaryPrim op a b iha ihb =>
      simp only [is_constant_expr, Bool.and_eq_true] at h
      obtain ⟨h1, h2⟩ := h
      obtain ⟨a1, a2, a3⟩ := iha h1
      obtain ⟨b1, b2, b3⟩ := ihb h2
      simp [countLet, countCons, countIf, a1, a2, a3, b1, b2, b3]
  | var n => simp [is_constant_expr] at h
  | letE n i b _ _ => simp [is_constant_expr] at h
  | ifE t c a _ _ _ => simp [is_constant_expr] at h
  | cons a b _ _ => simp [is_constant_expr] at h
  | car p _ => simp [is_constant_expr] at h
  | cdr p _ => simp [is_constant_expr] at h

/-- `emit_unary_prim` never emits a label. -/
theorem emit_unary_prim_no_label (op : UnaryPrimType) (si : Int) (l : Nat) :
    Instr.label l ∉ emit_unary_prim op si := by
  cases op <;> simp [emit_unary_prim]

/-- `emit_unary_prim` never writes the heap-pointer register. -/
theorem emit_unary_prim_no_esi (op : UnaryPrimType) (si : Int) (v : Int) :
    Instr.movImmEsi v ∉ emit_unary_prim op si := by
  cases op <;> simp [emit_unary_prim]

/-- `emit_binary_prim` never emits a label. -/
theorem emit_binary_prim_no_label (op : BinaryPrimType) (si : Int) (l : Nat) :
    Instr.label l ∉ emit_binary_prim op si := by
  cases op <;> simp [emit_binary_prim]

/-- `emit_binary_prim` never writes the heap-pointer register. -/
theorem emit_binary_prim_no_esi (op : BinaryPrimType) (si : Int) (v : Int) :
    Instr.movImmEsi v ∉ emit_binary_prim op si := by
  cases op <;> simp [emit_binary_prim]

end Compiler

namespace Compiler

/-- Inversion for a successful `Except` bind. -/
theorem exceptBind_ok {ε α β : Type} {x : Except ε α} {f : α → Except ε β} {b : β}
    (h : (x >>= f) = .ok b) : ∃ a, x = .ok a ∧ f a = .ok b := by
  cases x with
  | error err =>
      simp only [Bind.bind, Except.bind] at h
      exact Except.noConfusion h
  | ok a => exact ⟨a, rfl, by simpa only [Bind.bind, Except.bind] using h⟩

/-- Inversion for a successful `unique_label` call. -/
theorem unique_label_ok {st : EmitSt} {n : Nat} {st' : EmitSt}
    (h : unique_label st = .ok (n, st')) :
    st.label_count < 100 ∧ n = st.label_counter ∧
    st' = ⟨st.label_counter + 1, st.label_count + 1⟩ := by
  unfold unique_label at h
  split at h
  · exact absurd h (by simp)
  · rename_i hlt
    simp only [Except.ok.injEq, Prod.mk.injEq] at h
    exact ⟨by omega, h.1.symm, h.2.symm⟩

/-- Master bookkeeping lemma for `emit_expr`: how the returned stack index
relates to the incoming one, how the label counters advance (two fresh
labels per emitted `If`), bounds on the label numbers occurring in the
emitted code, and absence of any write to `%esi`. -/
theorem emit_expr_spec (mode : EvalMode) (e : Expr) :
    ∀ (si : Int) (env : Env) (st : EmitSt) (code : List Instr) (si' : Int) (st' : EmitSt),
    emit_expr mode e si env st = .ok (code, si', st') →
    si' = si - 4 * countLet e - 8 * countCons e ∧
    st'.label_counter = st.label_counter + 2 * countIf e ∧
    st'.label_count = st.label_count + 2 * countIf e ∧
    st'.label_count ≤ max st.label_count 100 ∧
    (∀ l, Instr.label l ∈ code → st.label_counter ≤ l ∧ l < st'.label_counter) ∧
    (∀ v, Instr.movImmEsi v ∉ code) := by
  induction e with
  | fixnum val =>
      intro si env st code si' st' h
      simp only [emit_expr] at h
      split at h <;>
      · obtain ⟨a, ha, h2⟩ := exceptBind_ok h
        simp only [Except.ok.injEq, Prod.mk.injEq] at h2
        obtain ⟨rfl, rfl, rfl⟩ := h2
        simp [countLet, countCons, countIf]
  | boolean b =>
      intro si env st code si' st' h
      simp only [emit_expr] at h
      split at h <;>
      · obtain ⟨a, ha, h2⟩ := exceptBind_ok h
        simp only [Except.ok.injEq, Prod.mk.injEq] at h2
        obtain ⟨rfl, rfl, rfl⟩ := h2
        simp [countLet, countCons, countIf]
  | character c =>
      intro si env st code si' st' h
      simp only [emit_expr] at h
      split at h <;>
      · obtain ⟨a, ha, h2⟩ := exceptBind_ok h
        simp only [Except.ok.injEq, Prod.mk.injEq] at h2
        obtain ⟨rfl, rfl, rfl⟩ := h2
        simp [countLet, countCons, countIf]
  | emptyList =>
      intro si env st code si' st' h
      simp only [emit_expr] at h
      split at h <;>
      · obtain ⟨a, ha, h2⟩ := exceptBind_ok h
        simp only [Except.ok.injEq, Prod.mk.injEq] at h2
        obtain ⟨rfl, rfl, rfl⟩ := h2
        simp [countLet, countCons, countIf]
  | var name =>
      intro si env st code si' st' h
      simp only [emit_expr] at h
      split at h
      · rename_i hc
        simp [is_constant_expr] at hc
      · split at h
        · exact absurd h (by simp)
        · simp only [Except.ok.injEq, Prod.mk.injEq] at h
          obtain ⟨rfl, rfl, rfl⟩ := h
          simp [countLet, countCons, countIf]
  | unaryPrim op operand ih =>
      intro si env st code si' st' h
      simp only [emit_expr] at h
      split at h
      · rename_i hc
        obtain ⟨a, ha, h2⟩ := exceptBind_ok h
        simp only [Except.ok.injEq, Prod.mk.injEq] at h2
        obtain ⟨rfl, rfl, rfl⟩ := h2
        obtain ⟨c1, c2, c3⟩ := is_constant_counts _ hc.2
        simp [c1, c2, c3]
      · obtain ⟨⟨code1, si1, st1⟩, h1, h2⟩ := exceptBind_ok h
        simp only [Except.ok.injEq, Prod.mk.injEq] at h2
        obtain ⟨rfl, rfl, rfl⟩ := h2
        obtain ⟨e1, e2, e3, e4, e5, e6⟩ := ih si env st code1 si1 st1 h1
        refine ⟨by simpa [countLet, countCons] using e1,
                by simpa [countIf] using e2,
                by simpa [countIf] using e3, e4, ?_, ?_⟩
        · intro l hl
          rcases List.mem_append.mp hl with hl | hl
          · exact e5 l hl
          · exact absurd hl (emit_unary_prim_no_label op si1 l)
        · intro v hv
          rcases List.mem_append.mp hv with hv | hv
          · exact e6 v hv
          · exact absurd hv (emit_unary_prim_no_esi op si1 v)
  | binaryPrim op operand1 operand2 ih1 ih2 =>
      intro si env st code si' st' h
      simp only [emit_expr] at h
      split at h
      · rename_i hc
        obtain ⟨a, ha, h2⟩ := exceptBind_ok h
        simp only [Except.ok.injEq, Prod.mk.injEq] at h2
        obtain ⟨rfl, rfl, rfl⟩ := h2
        obtain ⟨c1, c2, c3⟩ := is_constant_counts _ hc.2
        simp [c1, c2, c3]
      · obtain ⟨⟨code2, si1, st1⟩, h1, h2⟩ := exceptBind_ok h
        obtain ⟨⟨code1, si2, st2⟩, h3, h4⟩ := exceptBind_ok h2
        simp only [Except.ok.injEq, Prod.mk.injEq] at h4
        obtain ⟨rfl, rfl, rfl⟩ := h4
        obtain ⟨a1, a2, a3, a4, a5, a6⟩ := ih2 si env st code2 si1 st1 h1
        obtain ⟨b1, b2, b3, b4, b5, b6⟩ := ih1 (si1 - 4) env st1 code1 si2 st2 h3
        refine ⟨by simp [countLet, countCons]; omega,
                by simp [countIf]; omega,
                by simp [countIf]; omega,
                by omega, ?_, ?_⟩
        · intro l hl
          simp only [List.append_assoc, List.mem_append, List.mem_singleton] at hl
          rcases hl with hl | hl | hl | hl
          · have := a5 l hl; omega
          · simp at hl
          · have := b5 l hl; omega
          · exact absurd hl (emit_binary_prim_no_label op (si2 + 4) l)
        · intro v hv
          simp only [List.append_assoc, List.mem_append, List.mem_singleton] at hv
          rcases hv with hv | hv | hv | hv
          · exact a6 v hv
          · simp at hv
          · exact b6 v hv
          · exact absurd hv (emit_binary_prim_no_esi op (si2 + 4) v)
  | letE name initE body ih1 ih2 =>
      intro si env st code si' st' h
      simp only [emit_expr] at h
      split at h
      · rename_i hc
        simp [is_constant_expr] at hc
      · obtain ⟨⟨codeI, si1, st1⟩, h1, h2⟩ := exceptBind_ok h
        obtain ⟨⟨codeB, si2, st2⟩, h3, h4⟩ := exceptBind_ok h2
        simp only [Except.ok.injEq, Prod.mk.injEq] at h4
        obtain ⟨rfl, rfl, rfl⟩ := h4
        obtain ⟨a1, a2, a3, a4, a5, a6⟩ := ih1 si env st codeI si1 st1 h1
        obtain ⟨b1, b2, b3, b4, b5, b6⟩ := ih2 (si1 - 4) ((name, si1) :: env) st1 codeB si2 st2 h3
        refine ⟨by simp [countLet, countCons]; omega,
                by simp [countIf]; omega,
                by simp [countIf]; omega,
                by omega, ?_, ?_⟩
        · intro l hl
          simp only [List.append_assoc, List.mem_append, List.mem_singleton] at hl
          rcases hl with hl | hl | hl
          · have := a5 l hl; omega
          · simp at hl
          · have := b5 l hl; omega
        · intro v hv
          simp only [List.append_assoc, List.mem_append, List.mem_singleton] at hv
          rcases hv with hv | hv | hv
          · exact a6 v hv
          · simp at hv
          · exact b6 v hv
  | ifE test conseq alt ih1 ih2 ih3 =>
      intro si env st code si' st' h
      simp only [emit_expr] at h
      split at h
      · rename_i hc
        simp [is_constant_expr] at hc
      · obtain ⟨⟨lFalse, stA⟩, hA, h2⟩ := exceptBind_ok h
        obtain ⟨⟨lEnd, stB⟩, hB, h3⟩ := exceptBind_ok h2
        obtain ⟨⟨codeT, si1, st3⟩, hT, h4⟩ := exceptBind_ok h3
        obtain ⟨⟨codeC, si2, st4⟩, hC, h5⟩ := exceptBind_ok h4
        obtain ⟨⟨codeA, si3, st5⟩, hAl, h6⟩ := exceptBind_ok h5
        simp only [Except.ok.injEq, Prod.mk.injEq] at h6
        obtain ⟨rfl, rfl, rfl⟩ := h6
        obtain ⟨hcnt, hlf, hstA⟩ := unique_label_ok hA
        subst hstA
        obtain ⟨hcnt2, hle, hstB⟩ := unique_label_ok hB
        subst hstB
        obtain ⟨a1, a2, a3, a4, a5, a6⟩ := ih1 si env _ codeT si1 st3 hT
        obtain ⟨b1, b2, b3, b4, b5, b6⟩ := ih2 si1 env st3 codeC si2 st4 hC
        obtain ⟨c1, c2, c3, c4, c5, c6⟩ := ih3 si2 env st4 codeA si3 st5 hAl
        dsimp only at a1 a2 a3 a4 a5 b1 b2 b3 b4 b5 c1 c2 c3 c4 c5 hcnt hcnt2 hlf hle
        refine ⟨by simp [countLet, countCons]; omega,
                by simp [countIf]; omega,
                by simp [countIf]; omega,
                by omega, ?_, ?_⟩
        · intro l hl
          rcases List.mem_append.mp hl with hx | hx
          · rcases List.mem_append.mp hx with hy | hy
            · rcases List.mem_append.mp hy with hz | hz
              · rcases List.mem_append.mp hz with hw | hw
                · rcases List.mem_append.mp hw with hu | hu
                  · have := a5 l hu; omega
                  · simp at hu
                · have := b5 l hw; omega
              · simp only [List.mem_cons, List.not_mem_nil, or_false] at hz
                rcases hz with hz | hz
                · exact absurd hz (by simp)
                · simp only [Instr.label.injEq] at hz
                  subst hz; omega
            · have := c5 l hy; omega
          · simp only [List.mem_singleton, Instr.label.injEq] at hx
            subst hx; omega
        · intro v hv
          rcases List.mem_append.mp hv with hx | hx
          · rcases List.mem_append.mp hx with hy | hy
            · rcases List.mem_append.mp hy with hz | hz
              · rcases List.mem_append.mp hz with hw | hw
                · rcases List.mem_append.mp hw with hu | hu
                  · exact a6 v hu
                  · simp at hu
                · exact b6 v hw
              · simp at hz
            · exact c6 v hy
          · simp at hx
  | cons carE cdrE ih1 ih2 =>
      intro si env st code si' st' h
      simp only [emit_expr] at h
      split at h
      · rename_i hc
        simp [is_constant_expr] at hc
      · obtain ⟨⟨codeCar, si1, st1⟩, h1, h2⟩ := exceptBind_ok h
        obtain ⟨⟨codeCdr, si2, st2⟩, h3, h4⟩ := exceptBind_ok h2
        simp only [Except.ok.injEq, Prod.mk.injEq] at h4
        obtain ⟨rfl, rfl, rfl⟩ := h4
        obtain ⟨a1, a2, a3, a4, a5, a6⟩ := ih1 si env st codeCar si1 st1 h1
        obtain ⟨b1, b2, b3, b4, b5, b6⟩ := ih2 (si1 - 4) env st1 codeCdr si2 st2 h3
        refine ⟨by simp [countLet, countCons]; omega,
                by simp [countIf]; omega,
                by simp [countIf]; omega,
                by omega, ?_, ?_⟩
        · intro l hl
          simp only [List.append_assoc, List.mem_append, List.mem_cons,
            List.mem_singleton, List.not_mem_nil, or_false] at hl
          rcases hl with hl | hl | hl | hl | hl
          · have := a5 l hl; omega
          · simp at hl
          · have := b5 l hl; omega
          · simp at hl
          · simp at hl
        · intro v hv
          simp only [List.append_assoc, List.mem_append, List.mem_cons,
            List.mem_singleton, List.not_mem_nil, or_false] at hv
          rcases hv with hv | hv | hv | hv | hv
          · exact a6 v hv
          · simp at hv
          · exact b6 v hv
          · simp at hv
          · simp at hv
  | car pairE ih =>
      intro si env st code si' st' h
      simp only [emit_expr] at h
      split at h
      · rename_i hc
        simp [is_constant_expr] at hc
      · obtain ⟨⟨code1, si1, st1⟩, h1, h2⟩ := exceptBind_ok h
        simp only [Except.ok.injEq, Prod.mk.injEq] at h2
        obtain ⟨rfl, rfl, rfl⟩ := h2
        obtain ⟨e1, e2, e3, e4, e5, e6⟩ := ih si env st code1 si1 st1 h1
        refine ⟨by simpa [countLet, countCons] using e1,
                by simpa [countIf] using e2,
                by simpa [countIf] using e3, e4, ?_, ?_⟩
        · intro l hl
          simp only [List.mem_append, List.mem_cons, List.mem_singleton] at hl
          rcases hl with hl | hl | hl
          · exact e5 l hl
          · simp at hl
          · simp at hl
        · intro v hv
          simp only [List.mem_append, List.mem_cons, List.mem_singleton] at hv
          rcases hv with hv | hv | hv
          · exact e6 v hv
          · simp at hv
          · simp at hv
  | cdr pairE ih =>
      intro si env st code si' st' h
      simp only [emit_expr] at h
      split at h
      · rename_i hc
        simp [is_constant_expr] at hc
      · obtain ⟨⟨code1, si1, st1⟩, h1, h2⟩ := exceptBind_ok h
        simp only [Except.ok.injEq, Prod.mk.injEq] at h2
        obtain ⟨rfl, rfl, rfl⟩ := h2
        obtain ⟨e1, e2, e3, e4, e5, e6⟩ := ih si env st code1 si1 st1 h1
        refine ⟨by simpa [countLet, countCons] using e1,
                by simpa [countIf] using e2,
                by simpa [countIf] using e3, e4, ?_, ?_⟩
        · intro l hl
          simp only [List.mem_append, List.mem_cons, List.mem_singleton] at hl
          rcases hl with hl | hl | hl
          · exact e5 l hl
          · simp at hl
          · simp at hl
        · intro v hv
          simp only [List.mem_append, List.mem_cons, List.mem_singleton] at hv
          rcases hv with hv | hv | hv
          · exact e6 v hv
          · simp at hv
          · simp at hv

end Compiler

namespace Compiler

/-! ## Claim C1 — Fold vs Direct on constant expressions -/

/-- **C1** (failing input `(zero? 0)`): Fold/CTE compilation emits a
single load of the tagged boolean 63 computed by `eval_expr`, but
executing the Direct/RTE instruction sequence for the same constant
expression leaves 127 in the accumulator (`sall $6; orl $0x3f` applied to
the comparison flag).  The two modes therefore do not yield the same
runtime result on all purely constant expressions. -/
theorem C1_fold_direct_disagree :
    emit_expr .MODE_CTE (.unaryPrim .PRIM_ZERO_P (.fixnum 0)) (-4) [] ⟨0, 0⟩ =
      .ok ([.movImmEax 63], -4, ⟨0, 0⟩) ∧
    (emit_expr .MODE_RTE (.unaryPrim .PRIM_ZERO_P (.fixnum 0)) (-4) [] ⟨0, 0⟩).map
      (fun r => (runList r.1 mstate0).eax) = .ok 127 ∧
    (127 : Nat) ≠ 63 := by decide

/-! ## Claim C2 — type predicates and the canonical booleans -/

/-- **C2** (failing inputs): the Direct-mode instruction sequences of the
five type predicates rewrite the accumulator to
`(flag << 6) | 0x3f` — that is, 0x3F (= 63) when the predicate fails and
0x7F (= 127) when it holds — not the claimed canonical false 0x1F (= 31)
and true 0x3F.  Evaluated here on a holding and a failing input of
`zero?` and on holding inputs of the other four predicates. -/
theorem C2_predicates_not_canonical :
    (runList (emit_unary_prim .PRIM_ZERO_P (-4)) { mstate0 with eax := 0 }).eax = 127 ∧
    (runList (emit_unary_prim .PRIM_ZERO_P (-4)) { mstate0 with eax := 4 }).eax = 63 ∧
    (runList (emit_unary_prim .PRIM_NULL_P (-4)) { mstate0 with eax := 0x2f }).eax = 127 ∧
    (runList (emit_unary_prim .PRIM_BOOLEAN_P (-4)) { mstate0 with eax := 31 }).eax = 127 ∧
    (runList (emit_unary_prim .PRIM_INTEGER_P (-4)) { mstate0 with eax := 8 }).eax = 127 ∧
    (runList (emit_unary_prim .PRIM_CHAR_P (-4)) { mstate0 with eax := 15 }).eax = 127 ∧
    (127 : Nat) ≠ 63 ∧ (63 : Nat) ≠ 31 := by decide

/-! ## Claim C3 — binary comparisons -/

/-- **C3** (failing input `(= 1 1)` at top level): the right operand is
spilled to `-4(%esp)` but the emitted comparison reads `0(%esp)` (the
word one slot above the spill, `si + 4` inside `emit_binary_prim`), and
the boolean is built with `sall $6; orl $0x1f`.  On a zero-filled stack
the program computes 31 (`#f`) for `(= 1 1)` instead of the canonical
true 63. -/
theorem C3_comparison_reads_wrong_slot :
    emit_expr .MODE_RTE (.binaryPrim .PRIM_EQUALS (.fixnum 1) (.fixnum 1)) (-4) [] ⟨0, 0⟩ =
      .ok ([.movImmEax 4, .movEaxStack (-4), .movImmEax 4, .cmpEaxStack 0,
            .sete, .movzblAlEax, .salImmEax 6, .orImmEax 0x1f], -4, ⟨0, 0⟩) ∧
    (0 : Int) ≠ (-4 : Int) ∧
    (runList [.movImmEax 4, .movEaxStack (-4), .movImmEax 4, .cmpEaxStack 0,
              .sete, .movzblAlEax, .salImmEax 6, .orImmEax 0x1f] mstate0).eax = 31 ∧
    (31 : Nat) ≠ 63 := by decide

/-! ## Claim C4 — does `emit_expr` return its incoming stack index? -/

/-- **C4** (counterexample): emitting `(let (x 1) x)` at stack index −4
returns stack index −8, not the incoming −4: the `Let` case decrements
`si` for its binding and never restores it before returning. -/
theorem C4_let_si_not_restored :
    emit_expr .MODE_RTE (.letE "x" (.fixnum 1) (.var "x")) (-4) [] ⟨0, 0⟩ =
      .ok ([.movImmEax 4, .movEaxStack (-4), .movStackEax (-4)], -8, ⟨0, 0⟩) ∧
    (-8 : Int) ≠ (-4 : Int) := by decide

/-- **C4** (amended): `emit_expr` returns its incoming stack index minus
4 for every `Let` node and minus 8 for every `Cons` node in the emitted
subtree, and restores it for all other variants — i.e. the returned index
is `si − 4·#Let − 8·#Cons`, which equals `si` exactly when the subtree
contains no `Let` and no `Cons`. -/
theorem C4_stack_index_drift (mode : EvalMode) (e : Expr) (si : Int) (env : Env)
    (st : EmitSt) (code : List Instr) (si' : Int) (st' : EmitSt)
    (h : emit_expr mode e si env st = .ok (code, si', st')) :
    si' = si - 4 * countLet e - 8 * countCons e :=
  (emit_expr_spec mode e si env st code si' st' h).1

/-- Witness for `C4_stack_index_drift` at the concrete `Let` input. -/
theorem C4_stack_index_drift_witness :
    (-8 : Int) = -4 - 4 * (countLet (.letE "x" (.fixnum 1) (.var "x")) : Int)
      - 8 * (countCons (.letE "x" (.fixnum 1) (.var "x")) : Int) :=
  C4_stack_index_drift .MODE_RTE (.letE "x" (.fixnum 1) (.var "x")) (-4) [] ⟨0, 0⟩
    [.movImmEax 4, .movEaxStack (-4), .movStackEax (-4)] (-8) ⟨0, 0⟩ (by decide)

/-! ## Claim C5 — `env_extend` / `env_free` and the parent chain -/

/-- **C5** (failing behaviour): `env_extend` does allocate only a new
head in front of the unmodified parent chain (second conjunct), but
`env_free` walks and frees the *entire* chain reachable from that head —
including every entry of the parent environment (the parent's cell,
identity 0, is in the freed list).  After a `Let` body is emitted, the
caller's bindings are therefore freed, not intact. -/
theorem C5_env_free_reaches_parent :
    env_extend_chain [⟨0, "x", -4⟩] "y" (-8) 1 = [⟨1, "y", -8⟩, ⟨0, "x", -4⟩] ∧
    (env_extend_chain [⟨0, "x", -4⟩] "y" (-8) 1).tail = [⟨0, "x", -4⟩] ∧
    env_free_freedIds (env_extend_chain [⟨0, "x", -4⟩] "y" (-8) 1) = [1, 0] ∧
    0 ∈ env_free_freedIds (env_extend_chain [⟨0, "x", -4⟩] "y" (-8) 1) := by decide

/-! ## Claim C9 — Cons layout (counterexample part) -/

/-- **C9** (counterexample): for `(cons (let (x 1) x) 2)` at incoming
stack index −4, the pair's car is stored at offset −8 (fourth
instruction) and its cdr at −12, with the tagged pointer built from
`%esp − 12` — not at the two slots −4/−8 at the incoming stack index, because
the `Let` inside the car leaks the stack index (see C4). -/
theorem C9_cons_slots_shifted :
    emit_expr .MODE_RTE (.cons (.letE "x" (.fixnum 1) (.var "x")) (.fixnum 2)) (-4) [] ⟨0, 0⟩ =
      .ok ([.movImmEax 4, .movEaxStack (-4), .movStackEax (-4), .movEaxStack (-8),
            .movImmEax 8, .movEaxStack (-12), .movEspEax, .addImmEax (-12), .orImmEax 1],
           -16, ⟨0, 0⟩) ∧
    (-8 : Int) ≠ (-4 : Int) := by decide

/-! ## Claim C10 — the label allocator's cap -/

/-- **C10**: (1) once `label_count` has reached 100 every further
`unique_label` request aborts with the `Too many labels generated`
diagnostic, so at most 100 labels are ever produced in one run;
(2) each successful request requires `label_count < 100` and bumps it by
one; (3) emitting an expression consumes exactly two labels per `If`
node; (4) hence a run that emits successfully from the initial state has
at most 50 `If` branch points — more than 50 forces the abort. -/
theorem C10_label_cap :
    (∀ st : EmitSt, st.label_count ≥ 100 →
        unique_label st = .error "Too many labels generated") ∧
    (∀ (st : EmitSt) (n : Nat) (st' : EmitSt), unique_label st = .ok (n, st') →
        st.label_count < 100 ∧ st'.label_count = st.label_count + 1) ∧
    (∀ (mode : EvalMode) (e : Expr) (si : Int) (env : Env) (st : EmitSt)
        (code : List Instr) (si' : Int) (st' : EmitSt),
        emit_expr mode e si env st = .ok (code, si', st') →
        st'.label_count = st.label_count + 2 * countIf e) ∧
    (∀ (mode : EvalMode) (e : Expr) (si : Int) (env : Env)
        (code : List Instr) (si' : Int) (st' : EmitSt),
        emit_expr mode e si env ⟨0, 0⟩ = .ok (code, si', st') → countIf e ≤ 50) := by
  refine ⟨?_, ?_, ?_, ?_⟩
  · intro st h
    unfold unique_label
    rw [if_pos h]
  · intro st n st' h
    obtain ⟨h1, _, h3⟩ := unique_label_ok h
    subst h3
    exact ⟨h1, rfl⟩
  · intro mode e si env st code si' st' h
    exact (emit_expr_spec mode e si env st code si' st' h).2.2.1
  · intro mode e si env code si' st' h
    have h2 := (emit_expr_spec mode e si env ⟨0, 0⟩ code si' st' h).2.2.1
    have h3 := (emit_expr_spec mode e si env ⟨0, 0⟩ code si' st' h).2.2.2.1
    dsimp only at h2 h3
    omega

/-- Witness for `C10_label_cap`: the 101st request aborts, and a
successfully emitted one-`if` program is within the 50-`if` budget. -/
theorem C10_label_cap_witness :
    unique_label ⟨100, 100⟩ = .error "Too many labels generated" ∧
    countIf (.ifE (.boolean true) (.fixnum 10) (.fixnum 5)) ≤ 50 :=
  ⟨C10_label_cap.1 ⟨100, 100⟩ (by decide),
   C10_label_cap.2.2.2 .MODE_RTE (.ifE (.boolean true) (.fixnum 10) (.fixnum 5)) (-4) []
     [.movImmEax 63, .cmpImmEax 31, .je 0, .movImmEax 40, .jmp 1, .label 0,
      .movImmEax 20, .label 1] (-4) ⟨2, 2⟩ (by decide)⟩

end Compiler

namespace Compiler

/-! ## Claim C6 — `if` branches exactly on the false tag -/

/-- `findLabel` on a label at the head. -/
theorem findLabel_cons_self (l : Nat) (rest : List Instr) :
    findLabel (Instr.label l :: rest) l = some 0 := by
  simp [findLabel]

/-- `findLabel` skips a prefix free of the label. -/
theorem findLabel_append_of_forall {A B : List Instr} {l : Nat}
    (h : ∀ i ∈ A, i ≠ Instr.label l) :
    findLabel (A ++ B) l = (findLabel B l).map (· + A.length) := by
  induction A with
  | nil =>
      cases hB : findLabel B l <;> simp [hB]
  | cons a A ih =>
      have ha : a ≠ Instr.label l := h a (by simp)
      have hA : ∀ i ∈ A, i ≠ Instr.label l := fun i hi => h i (by simp [hi])
      rw [List.cons_append]
      show (if a = Instr.label l then some 0
            else (findLabel (A ++ B) l).map (· + 1)) =
          (findLabel B l).map (· + (a :: A).length)
      rw [if_neg ha, ih hA]
      cases hB : findLabel B l with
      | none => simp
      | some x => simp [List.length_cons, Nat.add_assoc]

/-- Element lookup past an appended prefix. -/
theorem getElem?_append_length_add (A B : List Instr) (i : Nat) :
    (A ++ B)[A.length + i]? = B[i]? := by
  induction A with
  | nil => simp
  | cons a A ih =>
      have hidx : (a :: A).length + i = (A.length + i) + 1 := by
        simp [List.length_cons]; omega
      rw [hidx, List.cons_append, List.getElem?_cons_succ, ih]

/-- Under `n < 2^32`, the signed reading equals a small nonnegative `m`
iff the pattern is `m`. -/
theorem toSigned_eq_small_iff (n : Nat) (hn : n < W) (m : Int)
    (hm1 : 0 ≤ m) (hm2 : m < 2147483648) : (toSigned n = m) ↔ ((n : Int) = m) := by
  unfold toSigned
  unfold W at hn
  split <;> omega

/-- **C6**: the code emitted for every `if` expression has the shape
`test; cmpl $0x1f,%eax; je Lfalse; consequent; jmp Lend; Lfalse:;
alternate; Lend:`, and — for any machine state reaching the comparison
with the test's runtime value in the accumulator — the two comparison
steps transfer control to the alternate block (the position of
`Lfalse:`, index `|test| + |consequent| + 3`) exactly when that value is
the canonical false tag 0x1F, and fall through into the consequent
(index `|test| + 2`) for every other value, including the tagged fixnum
zero. -/
theorem C6_if_alternate_iff_false_tag
    (mode : EvalMode) (t c a : Expr) (si : Int) (env : Env) (st : EmitSt)
    (P : List Instr) (si' : Int) (st' : EmitSt)
    (h : emit_expr mode (.ifE t c a) si env st = .ok (P, si', st')) :
    ∃ (codeT codeC codeA : List Instr) (lFalse lEnd : Nat),
      P = codeT ++ [.cmpImmEax 0x1f, .je lFalse] ++ codeC ++
          [.jmp lEnd, .label lFalse] ++ codeA ++ [.label lEnd] ∧
      ∀ s : MState, s.eax < W →
        stepPc P codeT.length s =
          some (codeT.length + 1, execInstr (.cmpImmEax 0x1f) s) ∧
        stepPc P (codeT.length + 1) (execInstr (.cmpImmEax 0x1f) s) =
          some (if s.eax = 0x1f then codeT.length + codeC.length + 3
                else codeT.length + 2,
                execInstr (.cmpImmEax 0x1f) s) := by
  simp only [emit_expr] at h
  split at h
  · rename_i hc
    simp [is_constant_expr] at hc
  · obtain ⟨⟨lFalse, stA⟩, hA, h2⟩ := exceptBind_ok h
    obtain ⟨⟨lEnd, stB⟩, hB, h3⟩ := exceptBind_ok h2
    obtain ⟨⟨codeT, si1, st3⟩, hT, h4⟩ := exceptBind_ok h3
    obtain ⟨⟨codeC, si2, st4⟩, hC, h5⟩ := exceptBind_ok h4
    obtain ⟨⟨codeA, si3, st5⟩, hAl, h6⟩ := exceptBind_ok h5
    simp only [Except.ok.injEq, Prod.mk.injEq] at h6
    obtain ⟨rfl, rfl, rfl⟩ := h6
    obtain ⟨_, hlf, hstA⟩ := unique_label_ok hA
    subst hstA
    obtain ⟨_, hle, hstB⟩ := unique_label_ok hB
    subst hstB
    have specT := emit_expr_spec mode t si env _ codeT si1 st3 hT
    have specC := emit_expr_spec mode c si1 env st3 codeC si2 st4 hC
    dsimp only at specT specC hlf hle
    refine ⟨codeT, codeC, codeA, lFalse, lEnd, rfl, ?_⟩
    intro s hs
    have hP : codeT ++ [Instr.cmpImmEax 0x1f, Instr.je lFalse] ++ codeC ++
        [Instr.jmp lEnd, Instr.label lFalse] ++ codeA ++ [Instr.label lEnd] =
        codeT ++ ([Instr.cmpImmEax 0x1f, Instr.je lFalse] ++ (codeC ++
        ([Instr.jmp lEnd, Instr.label lFalse] ++ (codeA ++ [Instr.label lEnd])))) := by
      simp [List.append_assoc]
    have hget0 : (codeT ++ [Instr.cmpImmEax 0x1f, Instr.je lFalse] ++ codeC ++
        [Instr.jmp lEnd, Instr.label lFalse] ++ codeA ++
        [Instr.label lEnd])[codeT.length]? = some (Instr.cmpImmEax 0x1f) := by
      rw [hP]
      have := getElem?_append_length_add codeT
        ([Instr.cmpImmEax 0x1f, Instr.je lFalse] ++ (codeC ++
          ([Instr.jmp lEnd, Instr.label lFalse] ++ (codeA ++ [Instr.label lEnd])))) 0
      simpa using this
    have hget1 : (codeT ++ [Instr.cmpImmEax 0x1f, Instr.je lFalse] ++ codeC ++
        [Instr.jmp lEnd, Instr.label lFalse] ++ codeA ++
        [Instr.label lEnd])[codeT.length + 1]? = some (Instr.je lFalse) := by
      rw [hP]
      have := getElem?_append_length_add codeT
        ([Instr.cmpImmEax 0x1f, Instr.je lFalse] ++ (codeC ++
          ([Instr.jmp lEnd, Instr.label lFalse] ++ (codeA ++ [Instr.label lEnd])))) 1
      simpa using this
    have hfind : findLabel (codeT ++ [Instr.cmpImmEax 0x1f, Instr.je lFalse] ++ codeC ++
        [Instr.jmp lEnd, Instr.label lFalse] ++ codeA ++ [Instr.label lEnd]) lFalse =
        some (codeT.length + codeC.length + 3) := by
      have hP2 : codeT ++ [Instr.cmpImmEax 0x1f, Instr.je lFalse] ++ codeC ++
          [Instr.jmp lEnd, Instr.label lFalse] ++ codeA ++ [Instr.label lEnd] =
          (codeT ++ [Instr.cmpImmEax 0x1f, Instr.je lFalse] ++ codeC ++ [Instr.jmp lEnd]) ++
          (Instr.label lFalse :: (codeA ++ [Instr.label lEnd])) := by
        simp [List.append_assoc]
      rw [hP2]
      have hfree : ∀ i ∈ codeT ++ [Instr.cmpImmEax 0x1f, Instr.je lFalse] ++ codeC ++
          [Instr.jmp lEnd], i ≠ Instr.label lFalse := by
        intro i hi
        rcases List.mem_append.mp hi with hi | hi
        · rcases List.mem_append.mp hi with hi | hi
          · rcases List.mem_append.mp hi with hi | hi
            · intro heq
              subst heq
              have := (specT.2.2.2.2.1 lFalse hi).1
              omega
            · simp only [List.mem_cons, List.not_mem_nil, or_false] at hi
              rcases hi with hi | hi <;> (subst hi; simp)
          · intro heq
            subst heq
            have := (specC.2.2.2.2.1 lFalse hi).1
            omega
        · simp only [List.mem_singleton] at hi
          subst hi; simp
      rw [findLabel_append_of_forall hfree, findLabel_cons_self]
      simp [List.length_append, List.length_cons]
      omega
    have hflag : toSigned (wrap 0x1f) = 31 := by decide
    constructor
    · rw [stepPc, hget0]
    · rw [stepPc, hget1]
      simp only [execInstr, hflag]
      have hiff := toSigned_eq_small_iff s.eax hs 31 (by norm_num) (by norm_num)
      by_cases heq : s.eax = 0x1f
      · rw [if_pos (by rw [heq] at hiff ⊢; exact hiff.mpr (by norm_num)), hfind]
        simp [heq]
      · rw [if_neg ?_, if_neg heq]
        intro hcontra
        exact heq (by exact_mod_cast hiff.mp hcontra)

end Compiler


namespace Compiler

/-- Witness for `C6_if_alternate_iff_false_tag` at `(if #t 10 5)`. -/
theorem C6_if_alternate_iff_false_tag_witness :
    ∃ (codeT codeC codeA : List Instr) (lFalse lEnd : Nat),
      ([.movImmEax 63, .cmpImmEax 31, .je 0, .movImmEax 40, .jmp 1, .label 0,
        .movImmEax 20, .label 1] : List Instr) =
        codeT ++ [.cmpImmEax 0x1f, .je lFalse] ++ codeC ++
          [.jmp lEnd, .label lFalse] ++ codeA ++ [.label lEnd] ∧
      ∀ s : MState, s.eax < W →
        stepPc [.movImmEax 63, .cmpImmEax 31, .je 0, .movImmEax 40, .jmp 1, .label 0,
                .movImmEax 20, .label 1] codeT.length s =
          some (codeT.length + 1, execInstr (.cmpImmEax 0x1f) s) ∧
        stepPc [.movImmEax 63, .cmpImmEax 31, .je 0, .movImmEax 40, .jmp 1, .label 0,
                .movImmEax 20, .label 1] (codeT.length + 1)
            (execInstr (.cmpImmEax 0x1f) s) =
          some (if s.eax = 0x1f then codeT.length + codeC.length + 3
                else codeT.length + 2,
                execInstr (.cmpImmEax 0x1f) s) :=
  C6_if_alternate_iff_false_tag .MODE_RTE (.boolean true) (.fixnum 10) (.fixnum 5)
    (-4) [] ⟨0, 0⟩
    [.movImmEax 63, .cmpImmEax 31, .je 0, .movImmEax 40, .jmp 1, .label 0,
     .movImmEax 20, .label 1] (-4) ⟨2, 2⟩ (by decide)

/-! ## Claim C7 — multiplication and the double-tag correction -/

/-- `wrap` of a value already below `2^32` is the identity. -/
theorem wrap_cast_small (n : Nat) (h : n < W) : wrap (n : Int) = n := by
  unfold wrap
  unfold W at h
  omega

/-- `wrap` always lands below `2^32`. -/
theorem wrap_lt_W (z : Int) : wrap z < W := by
  unfold wrap W
  omega

/-- `wrap` respects congruence modulo `2^32`. -/
theorem wrap_congr {x y : Int} (h : x % 4294967296 = y % 4294967296) :
    wrap x = wrap y := by
  unfold wrap
  rw [h]

/-- Casting a wrapped value back to `Int` gives the representative
residue. -/
theorem wrap_toNat_cast (z : Int) : ((wrap z : Nat) : Int) = z % 4294967296 := by
  unfold wrap
  exact Int.toNat_of_nonneg (Int.emod_nonneg z (by norm_num))

/-- Multiplying two wrapped patterns and wrapping agrees with wrapping
the product (machine `imull` computes the product modulo `2^32`). -/
theorem wrap_mul_wrap (x y : Int) :
    wrap (((wrap x : Nat) : Int) * ((wrap y : Nat) : Int)) = wrap (x * y) := by
  apply wrap_congr
  rw [wrap_toNat_cast, wrap_toNat_cast, ← Int.mul_emod]

/-- The signed reading of `wrap z` recovers `z` whenever `z` is within
the signed 32-bit range. -/
theorem toSigned_wrap (z : Int) (h1 : -2147483648 ≤ z) (h2 : z < 2147483648) :
    toSigned (wrap z) = z := by
  unfold toSigned wrap
  split <;> omega

/-- **C7**: for fixnum operands `a`, `b` whose double-tagged product
`16·a·b` fits the signed 32-bit range, both modes produce the single
tagged value `(a·b) << 2`: Fold mode computes
`((a<<2) · (b<<2)) >> 2` in `eval_expr` and loads it as one immediate,
and Direct mode emits `imull` followed by `sarl $2` (the double-tag
correction), whose execution from any state leaves the same tagged
product in the accumulator. -/
theorem C7_multiply_double_tag (a b : Int)
    (h1 : -2147483648 ≤ 16 * (a * b)) (h2 : 16 * (a * b) < 2147483648) :
    eval_expr (.binaryPrim .PRIM_MULTIPLY (.fixnum a) (.fixnum b)) =
      .ok (tag_fixnum (a * b)) ∧
    (∀ (si : Int) (env : Env) (st : EmitSt),
        emit_expr .MODE_CTE (.binaryPrim .PRIM_MULTIPLY (.fixnum a) (.fixnum b)) si env st =
          .ok ([.movImmEax ((tag_fixnum (a * b) : Nat) : Int)], si, st)) ∧
    (∀ (si : Int) (env : Env) (st : EmitSt),
        emit_expr .MODE_RTE (.binaryPrim .PRIM_MULTIPLY (.fixnum a) (.fixnum b)) si env st =
          .ok ([.movImmEax ((tag_fixnum b : Nat) : Int), .movEaxStack si,
                .movImmEax ((tag_fixnum a : Nat) : Int), .movStackEcx si,
                .imulEcxEax, .sarImmEax 2], si, st)) ∧
    (∀ (si : Int) (s : MState),
        (runList [.movImmEax ((tag_fixnum b : Nat) : Int), .movEaxStack si,
                  .movImmEax ((tag_fixnum a : Nat) : Int), .movStackEcx si,
                  .imulEcxEax, .sarImmEax 2] s).eax = tag_fixnum (a * b)) := by
  have hkey : wrap (Int.fdiv (toSigned (wrap (((tag_fixnum a : Nat) : Int) *
      ((tag_fixnum b : Nat) : Int)))) 4) = tag_fixnum (a * b) := by
    have h3 : wrap (((tag_fixnum a : Nat) : Int) * ((tag_fixnum b : Nat) : Int)) =
        wrap (16 * (a * b)) := by
      unfold tag_fixnum
      rw [wrap_mul_wrap]
      apply wrap_congr
      rw [show a * 4 * (b * 4) = 16 * (a * b) by ring]
    rw [h3, toSigned_wrap _ h1 h2, Int.fdiv_eq_ediv _ (by norm_num)]
    unfold tag_fixnum
    apply wrap_congr
    generalize a * b = k
    omega
  have heval : eval_expr (.binaryPrim .PRIM_MULTIPLY (.fixnum a) (.fixnum b)) =
      .ok (tag_fixnum (a * b)) := by
    show (eval_expr (.fixnum a) >>= fun left =>
        eval_expr (.fixnum b) >>= fun right =>
        .ok (wrap (Int.fdiv (toSigned (wrap ((left : Int) * right))) 4))) =
      .ok (tag_fixnum (a * b))
    simp only [eval_expr]
    simp only [Bind.bind, Except.bind]
    rw [hkey]
  refine ⟨heval, ?_, ?_, ?_⟩
  · intro si env st
    simp only [emit_expr, is_constant_expr]
    rw [if_pos (And.intro trivial trivial)]
    rw [show ((do
        let val ← eval_expr (Expr.binaryPrim .PRIM_MULTIPLY (.fixnum a) (.fixnum b))
        Except.ok ([Instr.movImmEax (val : Int)], si, st)) :
          Except String (List Instr × Int × EmitSt)) =
        (eval_expr (Expr.binaryPrim .PRIM_MULTIPLY (.fixnum a) (.fixnum b)) >>= fun val =>
          Except.ok ([Instr.movImmEax (val : Int)], si, st)) from rfl]
    rw [heval]
    simp [Bind.bind, Except.bind]
  · intro si env st
    simp only [emit_expr, is_constant_expr]
    rw [if_neg (by simp)]
    simp only [eval_expr, emit_binary_prim]
    simp [Bind.bind, Except.bind]
  · intro si s
    simp only [runList, List.foldl, execInstr]
    have htb : wrap ((tag_fixnum b : Nat) : Int) = tag_fixnum b :=
      wrap_cast_small _ (by unfold tag_fixnum; exact wrap_lt_W _)
    have hta : wrap ((tag_fixnum a : Nat) : Int) = tag_fixnum a :=
      wrap_cast_small _ (by unfold tag_fixnum; exact wrap_lt_W _)
    rw [htb, hta, if_true]
    rw [show ((2 : Int) ^ (2 : Nat)) = 4 from by norm_num]
    exact hkey

end Compiler

namespace Compiler

/-! ## Claim C9 — Cons layout (amended part) -/

/-- Any emitted instruction other than `movl $…, %esi` leaves `%esi`
unchanged. -/
theorem execInstr_esi_of_ne (i : Instr) (h : ∀ v, i ≠ .movImmEsi v) (s : MState) :
    (execInstr i s).esi = s.esi := by
  cases i <;> first
    | rfl
    | exact absurd rfl (h _)

/-- Any emitted instruction other than `movl $…, %esi` never reads
`%esi`: its effect commutes with an arbitrary change of `%esi`. -/
theorem execInstr_esi_indep (i : Instr) (h : ∀ v, i ≠ .movImmEsi v)
    (s : MState) (x : Nat) :
    execInstr i { s with esi := x } = { execInstr i s with esi := x } := by
  cases i <;> first
    | rfl
    | exact absurd rfl (h _)

/-- OR-ing 1 into a word sets its least-significant bit. -/
theorem lor_one_testBit (n : Nat) : (Nat.lor n 1).testBit 0 = true := by
  rw [show Nat.lor n 1 = (n ||| 1) from rfl, Nat.testBit_lor]
  simp [Nat.testBit_one_zero]

/-- **C9** (amended): for every `Cons` node whose car and cdr subtrees
contain no `Let` and no `Cons` (so each sub-emission returns its
incoming stack index, cf. C4), and in both modes, the emitted code is
`car-code; store at si; cdr-code; store at si−4; movl %esp,%eax;
addl $(si−4),%eax; orl $1,%eax`: the two pair words go to the slots `si`
(car, the word above) and `si−4` (cdr, the lower address) of the current
frame, the result is the `%esp`-derived address `esp+si−4` with its
least-significant bit set, and no instruction of the emitted sequence
reads or writes the heap-pointer register `%esi` — pair storage lives on
the stack, not in the heap region. -/
theorem C9_cons_layout (mode : EvalMode) (e1 e2 : Expr) (si : Int) (env : Env)
    (st : EmitSt) (P : List Instr) (si' : Int) (st' : EmitSt)
    (hl1 : countLet e1 = 0) (hc1 : countCons e1 = 0)
    (hl2 : countLet e2 = 0) (hc2 : countCons e2 = 0)
    (h : emit_expr mode (.cons e1 e2) si env st = .ok (P, si', st')) :
    ∃ A B : List Instr,
      P = A ++ [.movEaxStack si] ++ B ++
          [.movEaxStack (si - 4), .movEspEax, .addImmEax (si - 4), .orImmEax 1] ∧
      (∀ s : MState,
        (execInstr (.movEaxStack si) s).mem (wrap ((s.esp : Int) + si)) = s.eax) ∧
      (∀ s : MState,
        (execInstr (.movEaxStack (si - 4)) s).mem (wrap ((s.esp : Int) + (si - 4))) =
          s.eax) ∧
      (∀ s : MState,
        (runList [.movEspEax, .addImmEax (si - 4), .orImmEax 1] s).eax =
          Nat.lor (wrap ((s.esp : Int) + (si - 4))) 1 ∧
        (Nat.lor (wrap ((s.esp : Int) + (si - 4))) 1).testBit 0 = true) ∧
      (∀ i ∈ P, ∀ (s : MState) (x : Nat),
        (execInstr i s).esi = s.esi ∧
        execInstr i { s with esi := x } = { execInstr i s with esi := x }) := by
  have hesi := (emit_expr_spec mode (.cons e1 e2) si env st P si' st' h).2.2.2.2.2
  simp only [emit_expr] at h
  split at h
  · rename_i hc
    simp [is_constant_expr] at hc
  · obtain ⟨⟨codeCar, si1, st1⟩, h1, h2⟩ := exceptBind_ok h
    obtain ⟨⟨codeCdr, si2, st2⟩, h3, h4⟩ := exceptBind_ok h2
    simp only [Except.ok.injEq, Prod.mk.injEq] at h4
    obtain ⟨hP, rfl, rfl⟩ := h4
    have hsi1 : si1 = si := by
      have := (emit_expr_spec mode e1 si env st codeCar si1 st1 h1).1
      rw [hl1, hc1] at this
      simpa using this
    have hsi2 : si2 = si - 4 := by
      have := (emit_expr_spec mode e2 (si1 - 4) env st1 codeCdr si2 st2 h3).1
      rw [hl2, hc2, hsi1] at this
      simpa using this
    subst hsi1
    subst hsi2
    refine ⟨codeCar, codeCdr, ?_, ?_, ?_, ?_, ?_⟩
    · rw [← hP]
      simp [List.append_assoc]
    · intro s
      simp [execInstr]
    · intro s
      simp [execInstr]
    · intro s
      constructor
      · simp only [runList, List.foldl, execInstr]
        rw [show wrap 1 = 1 from by decide]
      · exact lor_one_testBit _
    · intro i hi s x
      have hne : ∀ v, i ≠ .movImmEsi v := by
        intro v hv
        exact hesi v (hv ▸ hi)
      exact ⟨execInstr_esi_of_ne i hne s, execInstr_esi_indep i hne s x⟩

/-- Witness for `C9_cons_layout` at `(cons 1 2)` emitted at stack
index −4. -/
theorem C9_cons_layout_witness :
    ∃ A B : List Instr,
      ([.movImmEax 4, .movEaxStack (-4), .movImmEax 8, .movEaxStack (-8),
        .movEspEax, .addImmEax (-8), .orImmEax 1] : List Instr) =
        A ++ [.movEaxStack (-4)] ++ B ++
          [.movEaxStack (-4 - 4), .movEspEax, .addImmEax (-4 - 4), .orImmEax 1] ∧
      (∀ s : MState,
        (execInstr (.movEaxStack (-4)) s).mem (wrap ((s.esp : Int) + (-4))) = s.eax) ∧
      (∀ s : MState,
        (execInstr (.movEaxStack (-4 - 4)) s).mem
          (wrap ((s.esp : Int) + (-4 - 4))) = s.eax) ∧
      (∀ s : MState,
        (runList [.movEspEax, .addImmEax (-4 - 4), .orImmEax 1] s).eax =
          Nat.lor (wrap ((s.esp : Int) + (-4 - 4))) 1 ∧
        (Nat.lor (wrap ((s.esp : Int) + (-4 - 4))) 1).testBit 0 = true) ∧
      (∀ i ∈ ([.movImmEax 4, .movEaxStack (-4), .movImmEax 8, .movEaxStack (-8),
               .movEspEax, .addImmEax (-8), .orImmEax 1] : List Instr),
        ∀ (s : MState) (x : Nat),
        (execInstr i s).esi = s.esi ∧
        execInstr i { s with esi := x } = { execInstr i s with esi := x }) :=
  C9_cons_layout .MODE_RTE (.fixnum 1) (.fixnum 2) (-4) [] ⟨0, 0⟩
    [.movImmEax 4, .movEaxStack (-4), .movImmEax 8, .movEaxStack (-8),
     .movEspEax, .addImmEax (-8), .orImmEax 1] (-12) ⟨0, 0⟩
    rfl rfl rfl rfl (by decide)

end Compiler

namespace Compiler

/-! ## Claim C8 — the parser's fatal-failure situations -/

/-- An identifier in call position matching no special form and neither
primitive name table is a fatal `UnknownPrimitive` error, whatever
follows it. -/
theorem parse_primary_unknown_prim (f : Nat) (name : String) (rest : List Token)
    (h1 : name ≠ "let") (h2 : name ≠ "if") (h3 : name ≠ "cons")
    (h4 : name ≠ "car") (h5 : name ≠ "cdr")
    (h6 : try_parse_unary_prim name = none)
    (h7 : try_parse_binary_prim name = none) :
    parse_primary (f + 1) (.lparen :: .ident name :: rest) =
      .error (.unknownPrimitive name) := by
  simp only [parse_primary]
  rw [if_neg h1, if_neg h2, if_neg h3, if_neg h4, if_neg h5, h6, h7]

/-- Lifting of `parse_primary_unknown_prim` through `parse_term`. -/
theorem parse_term_unknown_prim (f : Nat) (name : String) (rest : List Token)
    (h1 : name ≠ "let") (h2 : name ≠ "if") (h3 : name ≠ "cons")
    (h4 : name ≠ "car") (h5 : name ≠ "cdr")
    (h6 : try_parse_unary_prim name = none)
    (h7 : try_parse_binary_prim name = none) :
    parse_term (f + 1 + 1) (.lparen :: .ident name :: rest) =
      .error (.unknownPrimitive name) := by
  simp only [parse_term]
  rw [parse_primary_unknown_prim f name rest h1 h2 h3 h4 h5 h6 h7]
  rfl

/-- Lifting of `parse_primary_unknown_prim` through `parse_expr`. -/
theorem parse_expr_unknown_prim (f : Nat) (name : String) (rest : List Token)
    (h1 : name ≠ "let") (h2 : name ≠ "if") (h3 : name ≠ "cons")
    (h4 : name ≠ "car") (h5 : name ≠ "cdr")
    (h6 : try_parse_unary_prim name = none)
    (h7 : try_parse_binary_prim name = none) :
    parse_expr (f + 1 + 1 + 1) (.lparen :: .ident name :: rest) =
      .error (.unknownPrimitive name) := by
  simp only [parse_expr]
  rw [parse_term_unknown_prim f name rest h1 h2 h3 h4 h5 h6 h7]
  rfl

/-- **C8** (counterexample): the bare input `(` — which has no
call-position identifier and no trailing tokens — is also a fatal error
(`Unexpected token in primary expression`, reported for the end-of-input
token type 0): the parser's fatal failures are not limited to the
unknown-primitive and trailing-token situations. -/
theorem C8_syntax_error_third_class :
    parse_program [.lparen] = .error (.unexpectedPrimary 0) := by decide

/-- **C8** (amended): `parse_program` fails fatally with
`UnknownPrimitive` for every call-position identifier matching none of
`let`/`if`/`cons`/`car`/`cdr` and neither primitive table, and with a
trailing-token error whenever anything besides one optional trailing
semicolon remains after the parsed expression; in addition (not instead),
malformed token sequences abort with syntax errors
(`C8_syntax_error_third_class`). -/
theorem C8_parser_failure_modes :
    (∀ (name : String) (rest : List Token),
        name ≠ "let" → name ≠ "if" → name ≠ "cons" → name ≠ "car" → name ≠ "cdr" →
        try_parse_unary_prim name = none → try_parse_binary_prim name = none →
        parse_program (.lparen :: .ident name :: rest) =
          .error (.unknownPrimitive name)) ∧
    (∀ (ts : List Token) (result : Expr) (rest : List Token),
        parse_expr (3 * (strip_return ts).length + 16) (strip_return ts) =
          .ok (result, rest) →
        strip_semicolon rest ≠ [] →
        parse_program ts = .error .trailingInput) := by
  constructor
  · intro name rest h1 h2 h3 h4 h5 h6 h7
    have hs : strip_return (.lparen :: .ident name :: rest) =
        .lparen :: .ident name :: rest := rfl
    simp only [parse_program, hs]
    obtain ⟨g, hg⟩ : ∃ g, 3 * (Token.lparen :: Token.ident name :: rest).length + 16 =
        g + 1 + 1 + 1 :=
      ⟨3 * (Token.lparen :: Token.ident name :: rest).length + 13, by omega⟩
    rw [hg, parse_expr_unknown_prim g name rest h1 h2 h3 h4 h5 h6 h7]
  · intro ts result rest hok hne
    simp only [parse_program, hok]
    cases hsem : strip_semicolon rest with
    | nil => exact absurd hsem hne
    | cons a l => rfl

/-- Witness for `C8_parser_failure_modes`: the unknown call-position
identifier `foo` and a trailing `)` after a parsed number. -/
theorem C8_parser_failure_modes_witness :
    parse_program [.lparen, .ident "foo", .number 1, .rparen] =
      .error (.unknownPrimitive "foo") ∧
    parse_program [.number 5, .rparen] = .error .trailingInput :=
  ⟨C8_parser_failure_modes.1 "foo" [.number 1, .rparen] (by decide) (by decide)
      (by decide) (by decide) (by decide) (by decide) (by decide),
   C8_parser_failure_modes.2 [.number 5, .rparen] (.fixnum 5) [.rparen]
      (by decide) (by decide)⟩

end Compiler

namespace Compiler

/-- Witness for `C7_multiply_double_tag` at `a = 3`, `b = 5` (both modes
produce the tagged product `60`). -/
theorem C7_multiply_double_tag_witness :
    eval_expr (.binaryPrim .PRIM_MULTIPLY (.fixnum 3) (.fixnum 5)) =
      .ok (tag_fixnum (3 * 5)) ∧
    (∀ (si : Int) (env : Env) (st : EmitSt),
        emit_expr .MODE_CTE (.binaryPrim .PRIM_MULTIPLY (.fixnum 3) (.fixnum 5)) si env st =
          .ok ([.movImmEax ((tag_fixnum (3 * 5) : Nat) : Int)], si, st)) ∧
    (∀ (si : Int) (env : Env) (st : EmitSt),
        emit_expr .MODE_RTE (.binaryPrim .PRIM_MULTIPLY (.fixnum 3) (.fixnum 5)) si env st =
          .ok ([.movImmEax ((tag_fixnum 5 : Nat) : Int), .movEaxStack si,
                .movImmEax ((tag_fixnum 3 : Nat) : Int), .movStackEcx si,
                .imulEcxEax, .sarImmEax 2], si, st)) ∧
    (∀ (si : Int) (s : MState),
        (runList [.movImmEax ((tag_fixnum 5 : Nat) : Int), .movEaxStack si,
                  .movImmEax ((tag_fixnum 3 : Nat) : Int), .movStackEcx si,
                  .imulEcxEax, .sarImmEax 2] s).eax = tag_fixnum (3 * 5)) :=
  C7_multiply_double_tag 3 5 (by norm_num) (by norm_num)

end Compiler
